import Mathlib

/-!
Verification of the IBC integration-test utilities (`integration_tests/ibc_utils.py`).

This file gives a shallow embedding of the pure/decidable cores of the
verification helpers in that module — the cross-chain denomination derivation
(`ibc_denom`, built on SHA-256), the duplicate detectors (`find_duplicate`,
`assert_duplicate`), the channel-readiness predicate
(`check_channel_ready`), the timeout-wait wrappers (`wait_for_check_tx`,
`wait_for_status_change`), and the balance/fee reconciliation assertions of
the transfer scenarios (`ibc_multi_transfer`, `ibc_incentivized_transfer`) —
and proves the specified properties about them.

Python integers are modelled as `Int` (balances) or `Nat` (bytes, words);
machine words in the hash are `Nat` reduced mod `2 ^ 32` explicitly.
Python exceptions are modelled with `Except PyErr`.
-/

set_option maxRecDepth 20000

namespace IbcUtils

/-- Python exceptions that the embedded code can raise. -/
inductive PyErr where
  | indexError
  | nameError
  | assertionError
  | timeoutError
  deriving DecidableEq, Repr

/-- Outcome of a blocking `wait_for_fn` call: either the predicate became true
and the call returned, or the bounded timeout expired. -/
inductive WaitOutcome where
  | completed
  | timedOut
  deriving DecidableEq, Repr

/-- Decidable equality for `Except` results, so that concrete runs of the
embedded functions can be checked by `decide`. -/
instance instDecidableEqExcept {e a : Type} [DecidableEq e] [DecidableEq a] :
    DecidableEq (Except e a)
  | .ok x, .ok y => decidable_of_iff (x = y) (by simp)
  | .ok _, .error _ => .isFalse (by simp)
  | .error _, .ok _ => .isFalse (by simp)
  | .error x, .error y => decidable_of_iff (x = y) (by simp)

/-! ### SHA-256 (model of Python `hashlib.sha256`)

A byte-level implementation of FIPS 180-4 SHA-256 over `List Nat`
(each entry a byte), with 32-bit words as `Nat` reduced mod `2 ^ 32`. -/

/-- Reduce a natural number to a 32-bit word. -/
def u32 (x : Nat) : Nat := x % 4294967296

/-- Right-rotation of a 32-bit word. -/
def rotr (n x : Nat) : Nat := u32 ((x >>> n) ||| (x <<< (32 - n)))

/-- SHA-256 big Σ0. -/
def bigSigma0 (x : Nat) : Nat := (rotr 2 x) ^^^ (rotr 13 x) ^^^ (rotr 22 x)

/-- SHA-256 big Σ1. -/
def bigSigma1 (x : Nat) : Nat := (rotr 6 x) ^^^ (rotr 11 x) ^^^ (rotr 25 x)

/-- SHA-256 small σ0. -/
def smallSigma0 (x : Nat) : Nat := (rotr 7 x) ^^^ (rotr 18 x) ^^^ (x >>> 3)

/-- SHA-256 small σ1. -/
def smallSigma1 (x : Nat) : Nat := (rotr 17 x) ^^^ (rotr 19 x) ^^^ (x >>> 10)

/-- SHA-256 choice function; the 32-bit complement is taken by xor with
`2 ^ 32 - 1`. -/
def chFn (x y z : Nat) : Nat := (x &&& y) ^^^ ((x ^^^ 4294967295) &&& z)

/-- SHA-256 majority function. -/
def majFn (x y z : Nat) : Nat := (x &&& y) ^^^ (x &&& z) ^^^ (y &&& z)

/-- The 64 SHA-256 round constants. -/
def sha256K : List Nat :=
  [1116352408, 1899447441, 3049323471, 3921009573, 961987163,
   1508970993, 2453635748, 2870763221, 3624381080, 310598401,
   607225278, 1426881987, 1925078388, 2162078206, 2614888103,
   3248222580, 3835390401, 4022224774, 264347078, 604807628,
   770255983, 1249150122, 1555081692, 1996064986, 2554220882,
   2821834349, 2952996808, 3210313671, 3336571891, 3584528711,
   113926993, 338241895, 666307205, 773529912, 1294757372,
   1396182291, 1695183700, 1986661051, 2177026350, 2456956037,
   2730485921, 2820302411, 3259730800, 3345764771, 3516065817,
   3600352804, 4094571909, 275423344, 430227734, 506948616,
   659060556, 883997877, 958139571, 1322822218, 1537002063,
   1747873779, 1955562222, 2024104815, 2227730452, 2361852424,
   2428436474, 2756734187, 3204031479, 3329325298]

/-- The SHA-256 initial hash state. -/
def sha256H0 : List Nat :=
  [1779033703, 3144134277, 1013904242, 2773480762,
   1359893119, 2600822924, 528734635, 1541459225]

/-- Group bytes into big-endian 32-bit words. -/
def bytesToWords : List Nat → List Nat
  | b0 :: b1 :: b2 :: b3 :: rest =>
      (b0 * 16777216 + b1 * 65536 + b2 * 256 + b3) :: bytesToWords rest
  | _ => []

/-- Extend the 16-word message block by the given number of schedule words. -/
def extendW (w : List Nat) : Nat → List Nat
  | 0 => w
  | r + 1 =>
      let n := w.length
      let x := u32 (smallSigma1 (w.getD (n - 2) 0) + w.getD (n - 7) 0 +
                    smallSigma0 (w.getD (n - 15) 0) + w.getD (n - 16) 0)
      extendW (w ++ [x]) r

/-- One SHA-256 compression round on the 8-word working state. -/
def roundStep (st : List Nat) (kw : Nat × Nat) : List Nat :=
  let a := st.getD 0 0
  let b := st.getD 1 0
  let c := st.getD 2 0
  let d := st.getD 3 0
  let e := st.getD 4 0
  let f := st.getD 5 0
  let g := st.getD 6 0
  let h := st.getD 7 0
  let t1 := u32 (h + bigSigma1 e + chFn e f g + kw.1 + kw.2)
  let t2 := u32 (bigSigma0 a + majFn a b c)
  [u32 (t1 + t2), a, b, c, u32 (d + t1), e, f, g]

/-- Compress one 64-byte block into the hash state. -/
def compressBlock (h : List Nat) (block : List Nat) : List Nat :=
  let w := extendW (bytesToWords block) 48
  let st := (sha256K.zip w).foldl roundStep h
  List.zipWith (fun x y => u32 (x + y)) h st

/-- The 8-byte big-endian encoding of the message bit length. -/
def lenBytes8 (n : Nat) : List Nat :=
  [(n >>> 56) % 256, (n >>> 48) % 256, (n >>> 40) % 256, (n >>> 32) % 256,
   (n >>> 24) % 256, (n >>> 16) % 256, (n >>> 8) % 256, n % 256]

/-- SHA-256 padding: append `0x80`, zeros to 56 mod 64, then the bit length. -/
def padBytes (msg : List Nat) : List Nat :=
  let L := msg.length
  let k := (119 - (L % 64)) % 64
  msg ++ [128] ++ List.replicate k 0 ++ lenBytes8 (8 * L)

/-- Split a byte list into 64-byte chunks; the fuel (first argument) bounds
the number of chunks and is always called with at least `l.length`, which
suffices, keeping the recursion structural so the kernel can evaluate it. -/
def chunksFuel : Nat → List Nat → List (List Nat)
  | _, [] => []
  | 0, _ => []
  | fuel + 1, x :: xs => ((x :: xs).take 64) :: chunksFuel fuel ((x :: xs).drop 64)

/-- Split a byte list into 64-byte chunks. -/
def chunks64 (l : List Nat) : List (List Nat) := chunksFuel l.length l

/-- Big-endian bytes of a 32-bit word. -/
def wordBytes (w : Nat) : List Nat :=
  [(w >>> 24) % 256, (w >>> 16) % 256, (w >>> 8) % 256, w % 256]

/-- The SHA-256 digest (32 bytes) of a byte string. -/
def sha256 (msg : List Nat) : List Nat :=
  ((chunks64 (padBytes msg)).foldl compressBlock sha256H0).flatMap wordBytes

/-- UTF-8 encoding of one character (model of Python `str.encode`). -/
def utf8Bytes (c : Char) : List Nat :=
  let n := c.toNat
  if n < 128 then [n]
  else if n < 2048 then [192 + n / 64, 128 + n % 64]
  else if n < 65536 then [224 + n / 4096, 128 + (n / 64) % 64, 128 + n % 64]
  else [240 + n / 262144, 128 + (n / 4096) % 64, 128 + (n / 64) % 64, 128 + n % 64]

/-- UTF-8 encoding of a string (model of Python `str.encode`). -/
def strBytes (s : String) : List Nat := s.data.flatMap utf8Bytes

/-- The sixteen lowercase hexadecimal digits. -/
def hexDigits : List Char := "0123456789abcdef".data

/-- Two lowercase hex characters of a byte. -/
def byteHex (b : Nat) : List Char :=
  [hexDigits.getD (b / 16) '0', hexDigits.getD (b % 16) '0']

/-- Lowercase hex string of a byte list (model of Python `.hexdigest()`). -/
def hexdigest (bytes : List Nat) : String := String.mk (bytes.flatMap byteHex)

/-- ASCII uppercasing of one character (model of Python `str.upper` on the
ASCII strings this code applies it to). -/
def pyUpperChar (c : Char) : Char :=
  if 'a' ≤ c ∧ c ≤ 'z' then Char.ofNat (c.toNat - 32) else c

/-- ASCII uppercasing of a string (model of Python `str.upper`). -/
def pyUpper (s : String) : String := String.mk (s.data.map pyUpperChar)

/-- Embedding of `ibc_denom(channel, denom)`:
`"ibc/" + sha256(f"transfer/-channel-/-denom-".encode()).hexdigest().upper()`. -/
def ibc_denom (channel denom : String) : String :=
  "ibc/" ++ pyUpper (hexdigest (sha256 (strBytes ("transfer/" ++ channel ++ "/" ++ denom))))

/-- The sixteen uppercase hexadecimal digits. -/
def hexDigitsUpper : List Char := "0123456789ABCDEF".data

/-- Two uppercase hex characters of a byte. -/
def byteHexUpper (b : Nat) : List Char :=
  [hexDigitsUpper.getD (b / 16) '0', hexDigitsUpper.getD (b % 16) '0']

/-- Uppercase hex string of a byte list. -/
def hexUpper (bytes : List Nat) : String := String.mk (bytes.flatMap byteHexUpper)

/-- Modelled from the spec: the denomination derivation as the specification
words it, namely `"ibc/" + upper(hex(SHA256("transfer/" + channel + "/" +
denom)))`, written with a direct uppercase hex rendering of the digest.
Used as the comparison point for the refinement claim about `ibc_denom`. -/
def ibcDenomSpec (channel denom : String) : String :=
  "ibc/" ++ hexUpper (sha256 (strBytes ("transfer/" ++ channel ++ "/" ++ denom)))

/-! ### Duplicate detection (`find_duplicate`, `assert_duplicate`) -/

/-- One event attribute: a `key`/`value` pair of strings. -/
structure Attr where
  key : String
  value : String
  deriving DecidableEq, Repr

/-- The loop body of `find_duplicate`. The Python local `value0` is modelled
as `Option String`: it is `none` while unassigned, and reading it unassigned
(in the f-string) raises `NameError`. The Python `set` `res` is modelled by a
list of the elements added so far. -/
def findDupLoop (key : String) (value0 : Option String) (res : List String) :
    List Attr → Except PyErr (Option String)
  | [] => .ok none
  | a :: rest =>
    if a.key = key then findDupLoop key (some a.value) res rest
    else if a.key = "amount" then
      match value0 with
      | none => .error .nameError
      | some v0 =>
        let pair := v0 ++ ":" ++ a.value
        if pair ∈ res then .ok (some pair)
        else findDupLoop key (some v0) (pair :: res) rest
    else findDupLoop key value0 res rest

/-- Embedding of `find_duplicate(attributes)`: reading `attributes[0]` of an
empty sequence raises `IndexError`; otherwise the loop scans the whole
sequence once. -/
def find_duplicate (attributes : List Attr) : Except PyErr (Option String) :=
  match attributes with
  | [] => .error .indexError
  | a0 :: _ => findDupLoop a0.key none [] attributes

/-- The sequence of `"value0:amount"` pair strings that the `find_duplicate`
loop forms, in scan order (specification-side companion of `findDupLoop`). -/
def dupPairs (key : String) (value0 : Option String) : List Attr → List String
  | [] => []
  | a :: rest =>
    if a.key = key then dupPairs key (some a.value) rest
    else if a.key = "amount" then
      match value0 with
      | none => dupPairs key none rest
      | some v0 => (v0 ++ ":" ++ a.value) :: dupPairs key (some v0) rest
    else dupPairs key value0 rest

/-- The pair strings formed while scanning an attribute sequence. -/
def pairsOf (attributes : List Attr) : List String :=
  match attributes with
  | [] => []
  | a0 :: _ => dupPairs a0.key none attributes

/-- The first element of a list that already occurred earlier (or in the
initial `seen` set), if any. -/
def firstDup (seen : List String) : List String → Option String
  | [] => none
  | p :: rest => if p ∈ seen then some p else firstDup (p :: seen) rest

/-- One block event as deserialized from the RPC `block_results` endpoint:
a `type` tag and a list of attributes. -/
structure Event where
  type_ : String
  attributes : List Attr
  deriving DecidableEq, Repr

/-- JSON string escaping for the characters relevant here (model of the
escaping done by Python `json.dumps`). -/
def jsonEscapeChar (c : Char) : List Char :=
  if c = '\\' then ['\\', '\\']
  else if c = '"' then ['\\', '"']
  else [c]

/-- JSON string escaping (model of Python `json.dumps` on strings). -/
def jsonEscape (s : String) : String := String.mk (s.data.flatMap jsonEscapeChar)

/-- Comma-with-space separated concatenation, as Python `json.dumps` uses. -/
def joinComma : List String → String
  | [] => ""
  | [s] => s
  | s :: rest => s ++ ", " ++ joinComma rest

/-- JSON serialization of one attribute object (model of `json.dumps`). -/
def jsonAttr (a : Attr) : String :=
  "\x7b\"key\": \"" ++ jsonEscape a.key ++ "\", \"value\": \"" ++
    jsonEscape a.value ++ "\"\x7d"

/-- JSON serialization of one event object (model of `json.dumps(event)` on
the deserialized event dictionaries). -/
def jsonDumps (e : Event) : String :=
  "\x7b\"type\": \"" ++ jsonEscape e.type_ ++ "\", \"attributes\": [" ++
    joinComma (e.attributes.map jsonAttr) ++ "]\x7d"

/-- The scan loop of `assert_duplicate`: `values` is the set (modelled as a
list) of serializations seen so far; events of type `"message"` are skipped;
a repeated serialization fails the assertion. -/
def dupScan (values : List String) : List Event → Except PyErr Unit
  | [] => .ok ()
  | e :: rest =>
    if e.type_ = "message" then dupScan values rest
    else
      let s := jsonDumps e
      if s ∈ values then .error .assertionError
      else dupScan (s :: values) rest

/-- Embedding of the checking core of `assert_duplicate`, applied to the
event list of one block's transaction result. -/
def assert_duplicate (events : List Event) : Except PyErr Unit := dupScan [] events

/-! ### Channel readiness (`wait_for_check_channel_ready`) -/

/-- One channel entry as returned by the channel query. -/
structure Channel where
  channel_id : String
  state : String
  deriving DecidableEq, Repr

/-- Embedding of the `check_channel_ready` predicate: find the first channel
with the requested id (`next` over the generator); a `StopIteration` (no
match) is caught and yields `false`; otherwise compare the state string. -/
def check_channel_ready (channels : List Channel) (channel_id target : String) : Bool :=
  match channels.find? (fun ch => ch.channel_id == channel_id) with
  | none => false
  | some ch => ch.state == target

/-! ### Timeout waits (`wait_for_check_tx`, `wait_for_status_change`) -/

/-- Modelled from the spec: `wait_for_fn` (the ConditionPoller, defined in
`utils.py`, which is not part of the sources) returns normally when the
predicate became true within the timeout and raises `TimeoutError` when the
bounded timeout expired. The outcome of one call is abstracted as a
`WaitOutcome` input. -/
def wait_for_fn (outcome : WaitOutcome) : Except PyErr Unit :=
  match outcome with
  | .completed => .ok ()
  | .timedOut => .error .timeoutError

/-- A Python `assert` on a local that may be unassigned: reading an
unassigned local raises `NameError`; an assigned falsy value raises
`AssertionError`. -/
def assertLocal (raised : Option Bool) : Except PyErr Unit :=
  match raised with
  | none => .error .nameError
  | some b => if b then .ok () else .error .assertionError

/-- Embedding of `wait_for_check_tx(cli, adr, num_txs, timeout)`: with
`timeout=None` the wait is run bare; otherwise the wait runs under
`try/except TimeoutError`, the local `raised` is assigned `True` only in the
handler, and `assert raised` runs afterwards. -/
def wait_for_check_tx (timeout : Option Nat) (outcome : WaitOutcome) : Except PyErr Unit :=
  match timeout with
  | none => wait_for_fn outcome
  | some _ =>
    match wait_for_fn outcome with
    | .error .timeoutError => assertLocal (some true)
    | .error e => .error e
    | .ok _ => assertLocal none

/-- Embedding of `wait_for_status_change(tcontract, channel_id, seq,
timeout)`; the control flow around the wait is identical to
`wait_for_check_tx`. -/
def wait_for_status_change (timeout : Option Nat) (outcome : WaitOutcome) : Except PyErr Unit :=
  match timeout with
  | none => wait_for_fn outcome
  | some _ =>
    match wait_for_fn outcome with
    | .error .timeoutError => assertLocal (some true)
    | .error e => .error e
    | .ok _ => assertLocal none

/-! ### Fee-incentivized transfer assertions (`ibc_incentivized_transfer`) -/

/-- One balance entry as returned by `get_balances`: denomination and a
stringified amount. -/
structure Coin where
  denom : String
  amount : String
  deriving DecidableEq, Repr

/-- Embedding of the assertion after `pay_packet_fee` (with
`recv_fee = ack_fee = timeout_fee = 10ibcfee`):
`assert current == old_amt_sender_fee - 20`. -/
def pay_fee_assert (old_amt_sender_fee current : Int) : Except PyErr Unit :=
  if current = old_amt_sender_fee - 20 then .ok () else .error .assertionError

/-- Embedding of the `check_fee` predicate: `amount` and `amount_caller` are
the relayer's and the relayer-caller's queried `ibcfee` balances. -/
def check_fee (old_amt_fee old_amt_fee_caller amount amount_caller : Int) :
    Except PyErr Bool :=
  if amount > old_amt_fee then
    if amount_caller > 0 then
      if amount_caller = old_amt_fee_caller + 10 then
        if amount = old_amt_fee + 10 then .ok true
        else .error .assertionError
      else .error .assertionError
    else
      if amount = old_amt_fee + 20 then .ok true
      else .error .assertionError
  else .ok false

/-- Embedding of the final sender-balance assertion of
`ibc_incentivized_transfer`: the full balance list must equal the expected
base-denom and fee-denom entries. -/
def final_balances_assert (old_amt_sender_base old_amt_sender_fee amount : Int)
    (actual : List Coin) : Except PyErr Unit :=
  if actual = [⟨"basetcro", toString (old_amt_sender_base - amount)⟩,
               ⟨"ibcfee", toString (old_amt_sender_fee - 20)⟩] then .ok ()
  else .error .assertionError

end IbcUtils

namespace IbcUtils.MultiTransfer

/-! ### Plain and round-trip transfer assertions (`ibc_multi_transfer`)

The scenario constants and assertion closures of `ibc_multi_transfer`,
embedded with their concrete values from the source. -/

/-- The cronos-side denomination. -/
def denom0 : String := "basetcro"

/-- The chainmain-side native denomination. -/
def denom1 : String := "basecro"

/-- The channel used in both directions. -/
def channel1 : String := "channel-0"

/-- The sender's initial `basetcro` balance. -/
def old_balance0 : Int := 30000000000000000000000

/-- The receiver's initial `basecro` balance. -/
def old_balance1 : Int := 1000000000000000000000

/-- The transferred amount. -/
def amount : Int := 1000

/-- The denom trace path `f"transfer/-channel1-/-denom0-"`. -/
def path : String := "transfer/" ++ channel1 ++ "/" ++ denom0

/-- `hashlib.sha256(path.encode()).hexdigest().upper()`. -/
def denom_hash : String := pyUpper (hexdigest (sha256 (strBytes path)))

/-- The expected receiver balance list after settlement. -/
def expected : List Coin :=
  [⟨denom1, toString old_balance1⟩, ⟨"ibc/" ++ denom_hash, toString amount⟩]

/-- Embedding of the sender-side assertion right after the outbound
transfer: `assert balance == old_balance0 - amount`. -/
def sender_after_assert (balance : Int) : Except PyErr Unit :=
  if balance = old_balance0 - amount then .ok () else .error .assertionError

/-- Embedding of the `assert_trace_balance` closure: not settled yet while
the balance list has at most one entry; once it has more, it must equal
`expected` exactly. -/
def assert_trace_balance (balance : List Coin) : Except PyErr Bool :=
  if balance.length > 1 then
    if balance = expected then .ok true else .error .assertionError
  else .ok false

/-- The per-leg return amount `amount // 2`. -/
def amt : Int := amount / 2

/-- Embedding of the `assert_balance` closure for a return leg, with
`old_bal0` the value of the mutable `old_balance0` at that leg (it is
incremented by `amt` after each leg): progress is detected once the balance
exceeds `old_bal0 - amount`, and then it must equal `old_bal0 - amt`
exactly. -/
def assert_balance (old_bal0 balance : Int) : Except PyErr Bool :=
  if balance > old_bal0 - amount then
    if balance = old_bal0 - amt then .ok true else .error .assertionError
  else .ok false

end IbcUtils.MultiTransfer

namespace IbcUtils

/-! ### Helper lemmas about the hex rendering and digest shape -/

/-- Uppercasing a lowercase hex digit (or the out-of-range default) gives the
corresponding uppercase hex digit. -/
lemma pyUpperChar_hexDigit (n : Nat) :
    pyUpperChar (hexDigits.getD n '0') = hexDigitsUpper.getD n '0' := by
  rcases Nat.lt_or_ge n 16 with h | h
  · interval_cases n <;> decide
  · have e1 : hexDigits.length = 16 := rfl
    have e2 : hexDigitsUpper.length = 16 := rfl
    rw [List.getD_eq_default _ _ (by omega), List.getD_eq_default _ _ (by omega)]
    decide

/-- Uppercasing the lowercase hex pair of a byte gives the uppercase pair. -/
lemma map_pyUpperChar_byteHex (b : Nat) :
    (byteHex b).map pyUpperChar = byteHexUpper b := by
  unfold byteHex byteHexUpper
  simp only [List.map_cons, List.map_nil, pyUpperChar_hexDigit]

/-- Python's `.hexdigest().upper()` equals a direct uppercase hex rendering. -/
lemma pyUpper_hexdigest (bs : List Nat) : pyUpper (hexdigest bs) = hexUpper bs := by
  show String.mk ((bs.flatMap byteHex).map pyUpperChar) = String.mk (bs.flatMap byteHexUpper)
  rw [List.map_flatMap]
  simp [map_pyUpperChar_byteHex]

/-- The uppercase hex rendering has two characters per byte. -/
lemma length_flatMap_byteHexUpper (bs : List Nat) :
    (bs.flatMap byteHexUpper).length = 2 * bs.length := by
  induction bs with
  | nil => rfl
  | cons b t ih => simp [List.flatMap_cons, byteHexUpper, ih]; omega

/-- One compression round keeps the working state at 8 words. -/
lemma roundStep_length (st : List Nat) (kw : Nat × Nat) : (roundStep st kw).length = 8 := rfl

/-- Folding compression rounds keeps the working state at 8 words. -/
lemma foldl_roundStep_length (l : List (Nat × Nat)) (h : List Nat) (hh : h.length = 8) :
    (l.foldl roundStep h).length = 8 := by
  induction l generalizing h with
  | nil => simpa using hh
  | cons a t ih => simpa [List.foldl_cons] using ih _ (roundStep_length h a)

/-- Compressing a block keeps the hash state at 8 words. -/
lemma compressBlock_length (h block : List Nat) (hh : h.length = 8) :
    (compressBlock h block).length = 8 := by
  unfold compressBlock
  rw [List.length_zipWith, foldl_roundStep_length _ _ hh, hh]
  decide

/-- Folding block compressions keeps the hash state at 8 words. -/
lemma foldl_compressBlock_length (blocks : List (List Nat)) (h : List Nat)
    (hh : h.length = 8) : (blocks.foldl compressBlock h).length = 8 := by
  induction blocks generalizing h with
  | nil => simpa using hh
  | cons b t ih => simpa [List.foldl_cons] using ih _ (compressBlock_length _ b hh)

/-- Serializing words to bytes gives four bytes per word. -/
lemma length_flatMap_wordBytes (ws : List Nat) :
    (ws.flatMap wordBytes).length = 4 * ws.length := by
  induction ws with
  | nil => rfl
  | cons w t ih => simp [List.flatMap_cons, wordBytes, ih]; omega

/-- A SHA-256 digest is 32 bytes, for every input. -/
lemma sha256_length (msg : List Nat) : (sha256 msg).length = 32 := by
  unfold sha256
  rw [length_flatMap_wordBytes,
      foldl_compressBlock_length (chunks64 (padBytes msg)) sha256H0 (by decide)]

/-- SHA-256 of `"abc"` matches the FIPS 180-4 reference vector, validating
the embedding of `hashlib.sha256` against the reference implementation. -/
lemma sha256_abc_vector : hexdigest (sha256 (strBytes "abc")) =
    "ba7816bf8f01cfea414140de5dae2223b00361a396177a9cb410ff61f20015ad" := by decide

/-- C1: for every channel string and denomination string, `ibc_denom` equals
`"ibc/"` followed by the uppercase hexadecimal SHA-256 digest of
`"transfer/" + channel + "/" + denom`, with no truncation (the result always
has the full 4 + 64 characters); it is a pure function, so calling it twice
on the same pair yields identical strings. -/
theorem ibc_denom_matches_spec (channel denom : String) :
    ibc_denom channel denom = ibcDenomSpec channel denom ∧
    (ibc_denom channel denom).length = 68 ∧
    ibc_denom channel denom = ibc_denom channel denom := by
  have hlen : ∀ s : String, (hexUpper (sha256 (strBytes s))).length = 64 := by
    intro s
    show ((sha256 (strBytes s)).flatMap byteHexUpper).length = 64
    rw [length_flatMap_byteHexUpper, sha256_length]
  refine ⟨?_, ?_, rfl⟩
  · unfold ibc_denom ibcDenomSpec
    rw [pyUpper_hexdigest]
  · unfold ibc_denom
    rw [pyUpper_hexdigest, String.length_append, hlen]
    rfl

end IbcUtils

namespace IbcUtils

/-! ### Correspondence between the `find_duplicate` loop and its pair scan -/

/-- Once `value0` is assigned, the loop returns exactly the first pair string
that recurs (relative to the pairs already recorded in `res`). -/
lemma findDupLoop_eq (key : String) (l : List Attr) : ∀ (v0 : String) (res : List String),
    findDupLoop key (some v0) res l = .ok (firstDup res (dupPairs key (some v0) l)) := by
  induction l with
  | nil => intro v0 res; rfl
  | cons a t ih =>
    intro v0 res
    by_cases h1 : a.key = key
    · simp [findDupLoop, dupPairs, h1, ih]
    · by_cases h2 : a.key = "amount"
      · have h4 : ¬("amount" = key) := fun hk => h1 (h2.trans hk)
        by_cases h3 : (v0 ++ ":" ++ a.value) ∈ res
        · simp [findDupLoop, dupPairs, firstDup, h1, h2, h3, h4]
        · simp [findDupLoop, dupPairs, firstDup, h1, h2, h3, h4, ih]
      · simp [findDupLoop, dupPairs, h1, h2, ih]

/-- On a non-empty attribute list, `find_duplicate` returns the first pair
string that recurs during the single scan, if any. -/
lemma find_duplicate_eq (a0 : Attr) (rest : List Attr) :
    find_duplicate (a0 :: rest) = .ok (firstDup [] (pairsOf (a0 :: rest))) := by
  show findDupLoop a0.key none [] (a0 :: rest) = _
  simp [findDupLoop, pairsOf, dupPairs, findDupLoop_eq]

/-- A scan over pairwise-distinct elements disjoint from `seen` finds no
duplicate. -/
lemma firstDup_eq_none (l : List String) : ∀ (seen : List String), l.Nodup →
    (∀ p ∈ l, p ∉ seen) → firstDup seen l = none := by
  induction l with
  | nil => intro seen _ _; rfl
  | cons p t ih =>
    intro seen hn hall
    have hp : p ∉ seen := hall p (List.mem_cons_self p t)
    simp only [firstDup, if_neg hp]
    refine ih (p :: seen) (List.Nodup.of_cons hn) (fun q hq hmem => ?_)
    rcases List.mem_cons.mp hmem with h1 | h2
    · exact (List.nodup_cons.mp hn).1 (h1 ▸ hq)
    · exact hall q (List.mem_cons_of_mem _ hq) h2

/-- The scan stops at the first element that already occurred (in the
duplicate-free prefix scanned so far, or in the initial `seen` set) and
returns exactly that element. -/
lemma firstDup_second_occurrence (l1 : List String) : ∀ (p : String) (l2 seen : List String),
    l1.Nodup → (∀ q ∈ l1, q ∉ seen) → (p ∈ l1 ∨ p ∈ seen) →
    firstDup seen (l1 ++ p :: l2) = some p := by
  induction l1 with
  | nil =>
    intro p l2 seen _ _ hp
    rcases hp with h | h
    · exact absurd h (List.not_mem_nil p)
    · simp [firstDup, h]
  | cons a t ih =>
    intro p l2 seen hn hall hp
    have ha : a ∉ seen := hall a (List.mem_cons_self a t)
    simp only [List.cons_append, firstDup, if_neg ha]
    refine ih p l2 (a :: seen) (List.Nodup.of_cons hn) (fun q hq hmem => ?_) ?_
    · rcases List.mem_cons.mp hmem with h1 | h2
      · exact (List.nodup_cons.mp hn).1 (h1 ▸ hq)
      · exact hall q (List.mem_cons_of_mem _ hq) h2
    · rcases hp with h | h
      · rcases List.mem_cons.mp h with h1 | h2
        · exact Or.inr (List.mem_cons.mpr (Or.inl h1))
        · exact Or.inl h2
      · exact Or.inr (List.mem_cons_of_mem _ h)

/-- C3: on a non-empty attribute sequence, if no `(value-of-first-key,
amount)` pair string recurs then `find_duplicate` returns `none`, and if some
pair recurs then `find_duplicate` returns exactly the pair standing at the
first recurrence (the duplicate-free prefix `l1` already contains it),
walking the sequence once. -/
theorem find_duplicate_spec (attributes : List Attr) (hne : attributes ≠ []) :
    ((pairsOf attributes).Nodup → find_duplicate attributes = .ok none) ∧
    (∀ l1 p l2, pairsOf attributes = l1 ++ p :: l2 → l1.Nodup → p ∈ l1 →
      find_duplicate attributes = .ok (some p)) := by
  obtain ⟨a0, rest, rfl⟩ := List.exists_cons_of_ne_nil hne
  constructor
  · intro hnd
    rw [find_duplicate_eq, firstDup_eq_none _ [] hnd (by simp)]
  · intro l1 p l2 heq hnd hp
    rw [find_duplicate_eq, heq,
        firstDup_second_occurrence l1 p l2 [] hnd (by simp) (Or.inl hp)]

/-- Witness for C3 at concrete inputs: a sequence with an injected repeated
`(recipient, amount)` pair reports exactly that pair, and a repeat-free
sequence reports none. -/
theorem find_duplicate_spec_witness :
    find_duplicate [⟨"recipient", "r1"⟩, ⟨"amount", "5"⟩, ⟨"amount", "5"⟩] =
      .ok (some "r1:5") ∧
    find_duplicate [⟨"recipient", "r1"⟩, ⟨"amount", "5"⟩, ⟨"amount", "6"⟩] = .ok none := by
  constructor
  · exact (find_duplicate_spec _ (by decide)).2 ["r1:5"] "r1:5" []
      (by decide) (by decide) (by decide)
  · exact (find_duplicate_spec _ (by decide)).1 (by decide)

/-- C10: `find_duplicate` applied to the empty attribute sequence raises
`IndexError` from reading `attributes[0]` instead of returning the
no-duplicate sentinel; on every non-empty sequence it is total (returns
without raising). -/
theorem find_duplicate_empty_indexerror :
    find_duplicate ([] : List Attr) = .error .indexError ∧
    ∀ attributes : List Attr, attributes ≠ [] →
      ∃ r, find_duplicate attributes = .ok r := by
  refine ⟨rfl, fun attrs hne => ?_⟩
  obtain ⟨a0, rest, rfl⟩ := List.exists_cons_of_ne_nil hne
  exact ⟨_, find_duplicate_eq a0 rest⟩

/-- Witness for C10 at concrete inputs: the empty sequence raises
`IndexError` and a one-element sequence returns normally. -/
theorem find_duplicate_empty_indexerror_witness :
    find_duplicate ([] : List Attr) = .error .indexError ∧
    ∃ r, find_duplicate [⟨"k", "v"⟩] = .ok r :=
  ⟨find_duplicate_empty_indexerror.1,
   find_duplicate_empty_indexerror.2 [⟨"k", "v"⟩] (by decide)⟩

end IbcUtils

namespace IbcUtils

/-! ### Properties of `assert_duplicate` -/

/-- The scan of `assert_duplicate` succeeds exactly when the serializations
of the non-`"message"` events are pairwise distinct and none of them was
already in `values`. -/
lemma dupScan_ok_iff (l : List Event) : ∀ (values : List String),
    dupScan values l = .ok () ↔
      (((l.filter (fun e => e.type_ != "message")).map jsonDumps).Nodup ∧
       ∀ s ∈ (l.filter (fun e => e.type_ != "message")).map jsonDumps, s ∉ values) := by
  induction l with
  | nil => intro values; simp [dupScan]
  | cons e t ih =>
    intro values
    by_cases h : e.type_ = "message"
    · simp [dupScan, h, ih]
    · have hf : (e.type_ != "message") = true := by simpa using h
      have hfilter : (e :: t).filter (fun ev => ev.type_ != "message")
          = e :: t.filter (fun ev => ev.type_ != "message") := by
        simp [List.filter_cons, hf]
      rw [hfilter, List.map_cons]
      by_cases hs : jsonDumps e ∈ values
      · simp only [dupScan, if_neg h, if_pos hs]
        constructor
        · intro hc; exact absurd hc (by simp)
        · rintro ⟨-, hall⟩
          exact absurd hs (hall _ (List.mem_cons_self _ _))
      · simp only [dupScan, if_neg h, if_neg hs, ih]
        constructor
        · rintro ⟨hn, hall⟩
          refine ⟨List.nodup_cons.mpr
            ⟨fun hmem => hall _ hmem (List.mem_cons_self _ _), hn⟩, ?_⟩
          intro s hsmem
          rcases List.mem_cons.mp hsmem with h1 | h2
          · exact h1 ▸ hs
          · exact fun hv => hall s h2 (List.mem_cons_of_mem _ hv)
        · rintro ⟨hcons, hall⟩
          obtain ⟨hne, hn⟩ := List.nodup_cons.mp hcons
          refine ⟨hn, fun s hsmem hv => ?_⟩
          rcases List.mem_cons.mp hv with h1 | h2
          · exact hne (h1 ▸ hsmem)
          · exact hall s (List.mem_cons_of_mem _ hsmem) h2

/-- C8: `assert_duplicate` on the event list of one block's transaction
result fails if and only if two events whose type is not `"message"` have
byte-identical JSON serializations: events of type `"message"` are filtered
out and never compared, and a list whose non-message serializations are all
distinct passes. -/
theorem assert_duplicate_spec (events : List Event) :
    assert_duplicate events = .ok () ↔
      ((events.filter (fun e => e.type_ != "message")).map jsonDumps).Nodup := by
  show dupScan [] events = .ok () ↔ _
  rw [dupScan_ok_iff]
  simp

/-! ### Properties of the channel-readiness predicate -/

/-- C7: the `check_channel_ready` predicate returns `false` (treated as
"not yet", never as an error) when no channel in the queried list has the
requested channel id, and when a matching channel is found it returns `true`
exactly when that channel reports the target state. -/
theorem check_channel_ready_spec (channels : List Channel) (channel_id target : String) :
    ((∀ ch ∈ channels, ch.channel_id ≠ channel_id) →
      check_channel_ready channels channel_id target = false) ∧
    (∀ ch, channels.find? (fun c => c.channel_id == channel_id) = some ch →
      (check_channel_ready channels channel_id target = true ↔ ch.state = target)) := by
  constructor
  · intro hall
    have hnone : channels.find? (fun c => c.channel_id == channel_id) = none :=
      List.find?_eq_none.mpr (fun x hx => by simpa using hall x hx)
    simp [check_channel_ready, hnone]
  · intro ch hch
    simp [check_channel_ready, hch]

/-- Witness for C7 at concrete inputs: an absent channel id yields `false`,
and a present channel in the target state `"STATE_OPEN"` yields `true`. -/
theorem check_channel_ready_spec_witness :
    check_channel_ready [⟨"channel-0", "STATE_INIT"⟩, ⟨"channel-1", "STATE_OPEN"⟩]
      "channel-7" "STATE_OPEN" = false ∧
    check_channel_ready [⟨"channel-0", "STATE_INIT"⟩, ⟨"channel-1", "STATE_OPEN"⟩]
      "channel-1" "STATE_OPEN" = true := by
  constructor
  · exact (check_channel_ready_spec _ _ _).1 (by decide)
  · exact ((check_channel_ready_spec _ _ _).2 ⟨"channel-1", "STATE_OPEN"⟩ (by decide)).mpr rfl

/-! ### Properties of the timeout waits -/

/-- C6: with a non-`None` timeout, `wait_for_check_tx` and
`wait_for_status_change` catch a `TimeoutError` raised by the underlying
wait, record that it was raised, and return normally exactly when the
timeout occurred. -/
theorem wait_timeout_is_expected_success (t : Nat) (outcome : WaitOutcome) :
    (wait_for_check_tx (some t) outcome = .ok () ↔ outcome = .timedOut) ∧
    (wait_for_status_change (some t) outcome = .ok () ↔ outcome = .timedOut) := by
  cases outcome <;>
    simp [wait_for_check_tx, wait_for_status_change, wait_for_fn, assertLocal]

/-- C9: with a non-`None` timeout, when the waited condition becomes true
before the timeout (the underlying wait returns without raising), both
functions raise `NameError` on the never-assigned local `raised` at the
final assertion, rather than a clean assertion failure; `raised` is assigned
only inside the `TimeoutError` handler. -/
theorem wait_completed_raises_nameerror (t : Nat) :
    wait_for_check_tx (some t) .completed = .error .nameError ∧
    wait_for_status_change (some t) .completed = .error .nameError :=
  ⟨rfl, rfl⟩

end IbcUtils

namespace IbcUtils

/-! ### Properties of the fee-incentivized transfer assertions -/

/-- C2: in the fee-incentivized scenario with `recv_fee = ack_fee =
timeout_fee = 10ibcfee`, whenever the scenario's assertions pass, the
sender's `ibcfee` balance decreased by exactly 20 (never 30) after
`pay_packet_fee`; on the success path the relayer accounts received exactly
`recv_fee + ack_fee = 20` in total, split 10/10 with the relayer-caller
account when it participates and all 20 to the relayer otherwise; and the
sender's final balances show a net fee debit of exactly 20. -/
theorem incentivized_fee_accounting
    (old_amt_fee old_amt_fee_caller old_amt_sender_fee current amount amount_caller
      old_amt_sender_base : Int) (actual : List Coin)
    (h1 : pay_fee_assert old_amt_sender_fee current = .ok ())
    (h2 : check_fee old_amt_fee old_amt_fee_caller amount amount_caller = .ok true)
    (h3 : final_balances_assert old_amt_sender_base old_amt_sender_fee 1000 actual = .ok ()) :
    old_amt_sender_fee - current = 20 ∧ old_amt_sender_fee - current ≠ 30 ∧
    (amount_caller > 0 →
      amount - old_amt_fee = 10 ∧ amount_caller - old_amt_fee_caller = 10 ∧
      (amount - old_amt_fee) + (amount_caller - old_amt_fee_caller) = 20) ∧
    (¬ amount_caller > 0 → amount - old_amt_fee = 20) ∧
    actual = [⟨"basetcro", toString (old_amt_sender_base - 1000)⟩,
              ⟨"ibcfee", toString (old_amt_sender_fee - 20)⟩] := by
  have e1 : current = old_amt_sender_fee - 20 := by
    by_contra hne
    simp [pay_fee_assert, hne] at h1
  have e3 : actual = [⟨"basetcro", toString (old_amt_sender_base - 1000)⟩,
                      ⟨"ibcfee", toString (old_amt_sender_fee - 20)⟩] := by
    by_contra hne
    simp [final_balances_assert, hne] at h3
  unfold check_fee at h2
  split_ifs at h2
  any_goals simp at h2
  all_goals exact ⟨by omega, by omega, fun hc => ⟨by omega, by omega, by omega⟩,
    fun hnc => by omega, e3⟩

/-- Witness for C2 at concrete balances: sender fee balance drops from 100
to 80 (exactly 20), and a participating caller splits the 20 reward 10/10
with the relayer. -/
theorem incentivized_fee_accounting_witness :
    (100 : Int) - 80 = 20 ∧ ((10 : Int) - 0) + ((10 : Int) - 0) = 20 := by
  have h := incentivized_fee_accounting 0 0 100 80 10 10 5000
    [⟨"basetcro", "4000"⟩, ⟨"ibcfee", "80"⟩] (by decide) (by decide) (by decide)
  exact ⟨h.1, (h.2.2.1 (by decide)).2.2⟩

/-! ### Properties of the multi-transfer reconciliation assertions -/

/-- The receiver balance list expected by `ibc_multi_transfer` spells out to
the native-denom entry next to the derived `ibc_denom` entry for the
transferred amount. -/
lemma expected_eq : MultiTransfer.expected =
    [⟨"basecro", "1000000000000000000000"⟩,
     ⟨ibc_denom "channel-0" "basetcro", "1000"⟩] := by decide

/-- C4: for the plain transfer of `A = 1000` `basetcro` over `channel-0`
from a sender starting at `B = 30000000000000000000000`, whenever the
scenario's settlement assertions pass, the sender's balance equals `B - A`
and the receiver's balance list is exactly its native-denom entry alongside
the entry `(ibc_denom "channel-0" "basetcro", "1000")`. -/
theorem multi_transfer_plain_reconcile (senderBal : Int) (recvBal : List Coin)
    (h1 : MultiTransfer.sender_after_assert senderBal = .ok ())
    (h2 : MultiTransfer.assert_trace_balance recvBal = .ok true) :
    senderBal = 30000000000000000000000 - 1000 ∧
    recvBal = [⟨"basecro", "1000000000000000000000"⟩,
               ⟨ibc_denom "channel-0" "basetcro", "1000"⟩] := by
  have e1 : senderBal = MultiTransfer.old_balance0 - MultiTransfer.amount := by
    by_contra hne
    simp [MultiTransfer.sender_after_assert, hne] at h1
  have e2 : recvBal = MultiTransfer.expected := by
    unfold MultiTransfer.assert_trace_balance at h2
    split_ifs at h2 with hl he
    any_goals simp at h2
    exact he
  constructor
  · rw [e1]; decide
  · rw [e2, expected_eq]

/-- Witness for C4 at concrete balances, pinning the derived denomination to
the independently computed SHA-256 digest of `"transfer/channel-0/basetcro"`. -/
theorem multi_transfer_plain_reconcile_witness :
    ibc_denom "channel-0" "basetcro" =
      "ibc/6B5A664BF0AF4F71B2F0BAA33141E2F1321242FBD5D19762F541EC971ACB0865" := by
  have h := multi_transfer_plain_reconcile 29999999999999999999000
    [⟨"basecro", "1000000000000000000000"⟩,
     ⟨"ibc/6B5A664BF0AF4F71B2F0BAA33141E2F1321242FBD5D19762F541EC971ACB0865", "1000"⟩]
    (by decide) (by decide)
  have h2 := congrArg (fun l => (l.getD 1 ⟨"", ""⟩).denom) h.2
  exact h2.symm

/-- C5: in the round-trip scenario the return leg runs as two transactions
of `amt = amount // 2 = 500` each; whenever the per-leg settlement
assertions pass, the sender's balance after the first leg equals the
pre-transfer balance minus 500 and after the second equals the pre-transfer
balance exactly, increasing monotonically with no intermediate balance
exceeding the expected value at its stage. -/
theorem multi_transfer_return_legs (b0 b1 : Int)
    (h0 : MultiTransfer.assert_balance MultiTransfer.old_balance0 b0 = .ok true)
    (h1 : MultiTransfer.assert_balance
      (MultiTransfer.old_balance0 + MultiTransfer.amt) b1 = .ok true) :
    MultiTransfer.amt = 500 ∧
    b0 = 30000000000000000000000 - 500 ∧
    b1 = 30000000000000000000000 ∧
    30000000000000000000000 - 1000 < b0 ∧ b0 < b1 ∧
    b0 ≤ 30000000000000000000000 ∧ b1 ≤ 30000000000000000000000 := by
  have hamt : MultiTransfer.amt = 500 := by decide
  have hob : MultiTransfer.old_balance0 = 30000000000000000000000 := rfl
  have e0 : b0 = MultiTransfer.old_balance0 - MultiTransfer.amt := by
    unfold MultiTransfer.assert_balance at h0
    split_ifs at h0 with c1 c2
    any_goals simp at h0
    exact c2
  have e1 : b1 = MultiTransfer.old_balance0 + MultiTransfer.amt - MultiTransfer.amt := by
    unfold MultiTransfer.assert_balance at h1
    split_ifs at h1 with c1 c2
    any_goals simp at h1
    exact c2
  refine ⟨hamt, ?_, ?_, ?_, ?_, ?_, ?_⟩ <;> omega

/-- Witness for C5 at the concrete leg balances 30000000000000000000000-500
and 30000000000000000000000. -/
theorem multi_transfer_return_legs_witness :
    (29999999999999999999500 : Int) = 30000000000000000000000 - 500 ∧
    (29999999999999999999500 : Int) < 30000000000000000000000 := by
  have h := multi_transfer_return_legs 29999999999999999999500 30000000000000000000000
    (by decide) (by decide)
  exact ⟨h.2.1, h.2.2.2.2.1⟩

end IbcUtils
